import Mathlib

/-!
Verification of `hw/vfio.c` (vfio-based PCI device assignment).

Each C function relevant to the checked properties is shallowly embedded as an
executable Lean definition.  External collaborators (the kernel channel, the
generic PCI framework, the MSI/MSI-X emulation helpers) are modelled as oracle
functions passed in as parameters, or, where the checked property depends on
their behaviour, as definitions modelled from the specification.
-/

namespace Vfio

/-! PCI configuration-space constants, as used by hw/vfio.c
    (from pci/header.h and the qemu pci headers). -/

def PCI_CONFIG_SPACE_SIZE : Nat := 256
def PCI_CONFIG_HEADER_SIZE : Nat := 64
def PCI_CAP_SIZEOF : Nat := 4
def PCI_STATUS : Nat := 0x06
def PCI_STATUS_CAP_LIST : Nat := 0x10
def PCI_CAPABILITY_LIST : Nat := 0x34
def PCI_ROM_ADDRESS : Nat := 0x30
def MSIX_CAP_LENGTH : Nat := 12
def MSIX_PAGE_SIZE : Nat := 0x1000
def PCI_ROM_SLOT : Nat := 6
def INT_NONE : Nat := 0
def INT_INTx : Nat := 1
def INT_MSI : Nat := 2
def INT_MSIX : Nat := 3
def EBUSY : Nat := 16
def TARGET_PAGE_SIZE : Nat := 4096
def IO_MEM_RAM : Nat := 0
def IO_MEM_UNASSIGNED : Nat := 16

/-! ## Capability scanner (vfio_find_cap_offset) -/

/-- A config-space image is a byte oracle; reads go through `cfgByte`, which
truncates to a byte exactly as the `uint8_t config[]` array does. -/
def cfgByte (config : Nat → Nat) (i : Nat) : Nat := config i % 256

/-- `max_cap` in vfio_find_cap_offset:
`(PCI_CONFIG_SPACE_SIZE - PCI_CONFIG_HEADER_SIZE) / PCI_CAP_SIZEOF` = 48. -/
def capMaxIter : Nat := (PCI_CONFIG_SPACE_SIZE - PCI_CONFIG_HEADER_SIZE) / PCI_CAP_SIZEOF

/-- The `while (max_cap--)` loop body of vfio_find_cap_offset.  Each iteration:
`pos = config[pos] & ~3`; stop with 0 if `pos < PCI_CONFIG_HEADER_SIZE`;
read `id = config[pos]`; stop with 0 on the 0xff terminator; return `pos` on a
match; otherwise continue from `pos + PCI_CAP_LIST_NEXT`. -/
def findCapLoop (config : Nat → Nat) (cap : Nat) : Nat → Nat → Nat
  | 0, _ => 0
  | fuel+1, pos =>
    let p := cfgByte config pos &&& 0xfc
    if p < PCI_CONFIG_HEADER_SIZE then 0
    else
      let id := cfgByte config p
      if id = 0xff then 0
      else if id = cap then p
      else findCapLoop config cap fuel (p + 1)

/-- vfio_find_cap_offset: returns 0 when the PCI_STATUS capability-list bit is
unset, otherwise walks the capability list with at most `capMaxIter` steps. -/
def vfio_find_cap_offset (config : Nat → Nat) (cap : Nat) : Nat :=
  if cfgByte config PCI_STATUS &&& PCI_STATUS_CAP_LIST = 0 then 0
  else findCapLoop config cap capMaxIter PCI_CAPABILITY_LIST

/-- Specification-side view of the bounded capability walk: the list of
capability offsets visited (offsets at which an id is examined), in order,
stopping at an out-of-range pointer or the 0xff terminator. -/
def capWalk (config : Nat → Nat) : Nat → Nat → List Nat
  | 0, _ => []
  | fuel+1, pos =>
    let p := cfgByte config pos &&& 0xfc
    if p < PCI_CONFIG_HEADER_SIZE then []
    else if cfgByte config p = 0xff then []
    else p :: capWalk config fuel (p + 1)

theorem findCapLoop_eq_walk (config : Nat → Nat) (cap : Nat) :
    ∀ fuel pos, findCapLoop config cap fuel pos =
      ((capWalk config fuel pos).find? fun p => cfgByte config p == cap).getD 0 := by
  intro fuel
  induction fuel with
  | zero => intro pos; rfl
  | succ n ih =>
    intro pos
    simp only [findCapLoop, capWalk]
    by_cases h1 : cfgByte config pos &&& 0xfc < PCI_CONFIG_HEADER_SIZE
    · simp [h1]
    · by_cases h2 : cfgByte config (cfgByte config pos &&& 0xfc) = 0xff
      · simp [h1, h2]
      · by_cases h3 : cfgByte config (cfgByte config pos &&& 0xfc) = cap
        · have hcap : cap ≠ 0xff := by rw [h3] at h2; exact fun hco => h2 hco
          simp [h1, h2, h3, hcap, List.find?]
        · simp only [h1, h2, h3, if_false, if_true, if_neg, List.find?]
          rw [ih]
          have hb : (cfgByte config (cfgByte config pos &&& 0xfc) == cap) = false := by
            simp [h3]
          simp [hb]

theorem mem_capWalk_ge (config : Nat → Nat) :
    ∀ fuel pos p, p ∈ capWalk config fuel pos → PCI_CONFIG_HEADER_SIZE ≤ p := by
  intro fuel
  induction fuel with
  | zero => intro pos p hp; simp [capWalk] at hp
  | succ n ih =>
    intro pos p hp
    simp only [capWalk] at hp
    by_cases h1 : cfgByte config pos &&& 0xfc < PCI_CONFIG_HEADER_SIZE
    · simp [h1] at hp
    · by_cases h2 : cfgByte config (cfgByte config pos &&& 0xfc) = 0xff
      · simp [h1, h2] at hp
      · simp [h1, h2] at hp
        rcases hp with hp | hp
        · omega
        · exact ih _ _ hp

/-- C7: vfio_find_cap_offset terminates within the fixed bound
`capMaxIter = (config size - header size) / capability size` = 48 iterations
(the embedding's fuel), and its result is exactly: 0 when the capability-list
status bit is unset, otherwise the first offset in the bounded capability walk
whose capability id matches the request, or 0 when the walk ends (empty list,
terminator or out-of-range pointer) before a match.  A nonzero result always
carries the requested id and lies past the standard header. -/
theorem find_cap_offset_spec (config : Nat → Nat) (cap : Nat) :
    (vfio_find_cap_offset config cap =
      if cfgByte config PCI_STATUS &&& PCI_STATUS_CAP_LIST = 0 then 0
      else ((capWalk config capMaxIter PCI_CAPABILITY_LIST).find?
              fun p => cfgByte config p == cap).getD 0)
    ∧ (vfio_find_cap_offset config cap ≠ 0 →
        cfgByte config (vfio_find_cap_offset config cap) = cap ∧
        PCI_CONFIG_HEADER_SIZE ≤ vfio_find_cap_offset config cap) := by
  constructor
  · unfold vfio_find_cap_offset
    by_cases h : cfgByte config PCI_STATUS &&& PCI_STATUS_CAP_LIST = 0
    · simp [h]
    · simp [h, findCapLoop_eq_walk]
  · intro hne
    unfold vfio_find_cap_offset at hne ⊢
    by_cases h : cfgByte config PCI_STATUS &&& PCI_STATUS_CAP_LIST = 0
    · simp [h] at hne
    · simp only [h, if_false, if_neg] at hne ⊢
      rw [findCapLoop_eq_walk] at hne ⊢
      cases hf : (capWalk config capMaxIter PCI_CAPABILITY_LIST).find?
          (fun p => cfgByte config p == cap) with
      | none => simp [hf] at hne
      | some q =>
        simp only [hf, Option.getD_some]
        have hq := List.find?_some hf
        have hmem := List.mem_of_find?_eq_some hf
        simp at hq
        exact ⟨hq, mem_capWalk_ge config _ _ _ hmem⟩

/-- A concrete config image: capability-list bit set, list head at 0x50,
one capability with id 5 and next pointer 0. -/
def capDemoConfig : Nat → Nat :=
  fun i => if i = PCI_STATUS then 0x10 else if i = PCI_CAPABILITY_LIST then 0x50
    else if i = 0x50 then 5 else 0

/-- C7 witness: on the concrete image, the scanner finds the id-5 capability
at 0x50, and the nonzero-result consequences hold there. -/
theorem find_cap_offset_spec_witness :
    vfio_find_cap_offset capDemoConfig 5 ≠ 0 ∧
    cfgByte capDemoConfig (vfio_find_cap_offset capDemoConfig 5) = 5 ∧
    PCI_CONFIG_HEADER_SIZE ≤ vfio_find_cap_offset capDemoConfig 5 :=
  ⟨by decide, ((find_cap_offset_spec capDemoConfig 5).2 (by decide)).1,
   ((find_cap_offset_spec capDemoConfig 5).2 (by decide)).2⟩

/-! ## Range overlap (qemu range.h) -/

/-- ranges_overlap from range.h:
`!(last2 < first1 || last1 < first2)` with `last = first + len - 1`. -/
def ranges_overlap (f1 l1 f2 l2 : Nat) : Bool :=
  !(decide (f2 + l2 - 1 < f1) || decide (f1 + l1 - 1 < f2))

theorem ranges_overlap_iff {f1 l1 f2 l2 : Nat} (h1 : 0 < l1) (h2 : 0 < l2) :
    ranges_overlap f1 l1 f2 l2 = true ↔
      ∃ x, f1 ≤ x ∧ x < f1 + l1 ∧ f2 ≤ x ∧ x < f2 + l2 := by
  unfold ranges_overlap
  simp only [Bool.not_eq_true', Bool.or_eq_false_iff, decide_eq_false_iff_not, not_lt]
  constructor
  · rintro ⟨ha, hb⟩
    refine ⟨max f1 f2, ?_, ?_, ?_, ?_⟩ <;> omega
  · rintro ⟨x, hx1, hx2, hx3, hx4⟩
    omega

/-! ## Config-space read routing (vfio_pci_read_config) -/

/-- Capability layout of the emulated device, as held in the PCIDevice and
VFIODevice fields consulted by the config-space proxy. -/
structure CfgDev where
  msiPresent : Bool
  msixPresent : Bool
  msi_cap : Nat
  msix_cap : Nat
  msi_cap_size : Nat

/-- vfio_pci_read_config: ranges overlapping the ROM address register, the
MSI-X capability window (when MSI-X is present) or the MSI capability window
(when MSI is present) are served from the emulated image
(`pci_default_read_config`, oracle `emulated`); everything else is a
positioned read from the physical device (oracle `device`, `none` modelling a
failed pread, which the C code turns into `(uint32_t)-1`). -/
def vfio_pci_read_config (d : CfgDev) (emulated : Nat → Nat → Nat)
    (device : Nat → Nat → Option Nat) (addr len : Nat) : Nat :=
  if ranges_overlap addr len PCI_ROM_ADDRESS 4
     || (d.msixPresent && ranges_overlap addr len d.msix_cap MSIX_CAP_LENGTH)
     || (d.msiPresent && ranges_overlap addr len d.msi_cap d.msi_cap_size)
  then emulated addr len
  else (device addr len).getD 0xffffffff

/-- C6: a config read of `len` bytes at `addr` is served from the locally
emulated image exactly when some byte of the accessed range lies in the
option-ROM address register, in the MSI-X capability window (MSI-X present),
or in the MSI capability window (MSI present); otherwise it is the value read
from the physical device through the channel. -/
theorem pci_read_config_routing (d : CfgDev) (emulated : Nat → Nat → Nat)
    (device : Nat → Nat → Option Nat) (addr len : Nat)
    (hlen : 0 < len) (hsz : 0 < d.msi_cap_size) :
    ((∃ x ∈ Finset.range (addr + len), addr ≤ x ∧
        ((PCI_ROM_ADDRESS ≤ x ∧ x < PCI_ROM_ADDRESS + 4) ∨
         (d.msixPresent = true ∧ d.msix_cap ≤ x ∧ x < d.msix_cap + MSIX_CAP_LENGTH) ∨
         (d.msiPresent = true ∧ d.msi_cap ≤ x ∧ x < d.msi_cap + d.msi_cap_size))) →
      vfio_pci_read_config d emulated device addr len = emulated addr len)
    ∧ ((¬ ∃ x ∈ Finset.range (addr + len), addr ≤ x ∧
        ((PCI_ROM_ADDRESS ≤ x ∧ x < PCI_ROM_ADDRESS + 4) ∨
         (d.msixPresent = true ∧ d.msix_cap ≤ x ∧ x < d.msix_cap + MSIX_CAP_LENGTH) ∨
         (d.msiPresent = true ∧ d.msi_cap ≤ x ∧ x < d.msi_cap + d.msi_cap_size))) →
      vfio_pci_read_config d emulated device addr len = (device addr len).getD 0xffffffff) := by
  have hrom : (0:Nat) < 4 := by norm_num
  have hmsix : (0:Nat) < MSIX_CAP_LENGTH := by norm_num [MSIX_CAP_LENGTH]
  constructor
  · intro hc
    unfold vfio_pci_read_config
    rcases hc with ⟨x, hx2m, hx1, hx3⟩
    have hx2 : x < addr + len := Finset.mem_range.1 hx2m
    have hb : (ranges_overlap addr len PCI_ROM_ADDRESS 4
         || (d.msixPresent && ranges_overlap addr len d.msix_cap MSIX_CAP_LENGTH)
         || (d.msiPresent && ranges_overlap addr len d.msi_cap d.msi_cap_size)) = true := by
      rcases hx3 with h | h | h
      · have : ranges_overlap addr len PCI_ROM_ADDRESS 4 = true :=
          (ranges_overlap_iff hlen hrom).2 ⟨x, hx1, hx2, h.1, h.2⟩
        simp [this]
      · have : ranges_overlap addr len d.msix_cap MSIX_CAP_LENGTH = true :=
          (ranges_overlap_iff hlen hmsix).2 ⟨x, hx1, hx2, h.2.1, h.2.2⟩
        simp [this, h.1]
      · have : ranges_overlap addr len d.msi_cap d.msi_cap_size = true :=
          (ranges_overlap_iff hlen hsz).2 ⟨x, hx1, hx2, h.2.1, h.2.2⟩
        simp [this, h.1]
    rw [if_pos hb]
  · intro hc
    unfold vfio_pci_read_config
    have hb : (ranges_overlap addr len PCI_ROM_ADDRESS 4
         || (d.msixPresent && ranges_overlap addr len d.msix_cap MSIX_CAP_LENGTH)
         || (d.msiPresent && ranges_overlap addr len d.msi_cap d.msi_cap_size)) = false := by
      by_contra hii
      rw [Bool.not_eq_false] at hii
      rcases Bool.or_eq_true_iff.1 hii with hi | hi
      · rcases Bool.or_eq_true_iff.1 hi with hj | hj
        · rcases (ranges_overlap_iff hlen hrom).1 hj with ⟨x, a, b, c, e⟩
          exact hc ⟨x, Finset.mem_range.2 b, a, Or.inl ⟨c, e⟩⟩
        · rcases Bool.and_eq_true_iff.1 hj with ⟨hp, hq⟩
          rcases (ranges_overlap_iff hlen hmsix).1 hq with ⟨x, a, b, c, e⟩
          exact hc ⟨x, Finset.mem_range.2 b, a, Or.inr (Or.inl ⟨hp, c, e⟩)⟩
      · rcases Bool.and_eq_true_iff.1 hi with ⟨hp, hq⟩
        rcases (ranges_overlap_iff hlen hsz).1 hq with ⟨x, a, b, c, e⟩
        exact hc ⟨x, Finset.mem_range.2 b, a, Or.inr (Or.inr ⟨hp, c, e⟩)⟩
    rw [hb]
    simp

/-- C6 witness: a 4-byte read at the ROM address register is served from the
emulated image; the hypotheses of the routing theorem hold at this concrete
device. -/
theorem pci_read_config_routing_witness :
    (0:Nat) < 4 ∧ (0:Nat) < 10 ∧
    vfio_pci_read_config ⟨true, true, 0x50, 0x60, 10⟩ (fun _ _ => 111)
        (fun _ _ => some 222) 0x30 4 = 111 :=
  ⟨by norm_num, by norm_num,
    (pci_read_config_routing ⟨true, true, 0x50, 0x60, 10⟩ (fun _ _ => 111)
      (fun _ _ => some 222) 0x30 4 (by norm_num) (by norm_num)).1 (by decide)⟩

/-! ## DMA map chunking (vfio_dma_map, vfio_dma_unmap) -/

/-- The `while (size)` loop of vfio_dma_map.  `ioctlMap vaddr dmaaddr size`
is the VFIO_MAP_DMA call: `none` models success, `some e` a failure with
`errno = e` (the C code then returns `-errno`).  Each chunk is
`MIN(size, VFIO_MAX_MAP_SIZE)` and vaddr/dmaaddr advance together.  The
returned list is the sequence of issued map calls; the Int is the C return
value.  Fuel is the remaining byte count, which bounds the chunk count. -/
def vfio_dma_map_run (ioctlMap : Nat → Nat → Nat → Option Nat) (maxSize : Nat) :
    Nat → Nat → Nat → Nat → List (Nat × Nat × Nat) × Int
  | 0, _, _, _ => ([], 0)
  | fuel+1, vaddr, dmaaddr, size =>
    if size = 0 then ([], 0)
    else
      let c := min size maxSize
      match ioctlMap vaddr dmaaddr c with
      | some e => ([(vaddr, dmaaddr, c)], -(e : Int))
      | none =>
        let r := vfio_dma_map_run ioctlMap maxSize fuel (vaddr + c) (dmaaddr + c) (size - c)
        ((vaddr, dmaaddr, c) :: r.1, r.2)

/-- vfio_dma_map: `dma_map.vaddr = qemu_get_ram_ptr(phys_offset)` (oracle
`ramPtr`), `dma_map.dmaaddr = start_addr`, then the chunking loop. -/
def vfio_dma_map (ioctlMap : Nat → Nat → Nat → Option Nat) (ramPtr : Nat → Nat)
    (maxSize start_addr size phys_offset : Nat) : List (Nat × Nat × Nat) × Int :=
  vfio_dma_map_run ioctlMap maxSize size (ramPtr phys_offset) start_addr size

/-- vfio_dma_unmap: a single VFIO_UNMAP_DMA call for the whole range. -/
def vfio_dma_unmap (ioctlUnmap : Nat → Nat → Nat → Option Nat) (ramPtr : Nat → Nat)
    (start_addr size phys_offset : Nat) : Int :=
  match ioctlUnmap (ramPtr phys_offset) start_addr size with
  | some e => -(e : Int)
  | none => 0

/-- Specification-side shape of a chunk list: starting from host address `v`
and IOVA `d` with `s` bytes left, each chunk starts exactly where the previous
one ended (host and IOVA advance together), is nonempty, and has size
`min s maxSize` (hence at most `maxSize`). -/
def chunksSeqFrom (maxSize : Nat) : Nat → Nat → Nat → List (Nat × Nat × Nat) → Bool
  | _, _, _, [] => true
  | v, d, s, q :: rest =>
    decide (q.1 = v) && decide (q.2.1 = d) && decide (q.2.2 = min s maxSize) &&
    decide (0 < q.2.2) &&
    chunksSeqFrom maxSize (v + q.2.2) (d + q.2.2) (s - q.2.2) rest

theorem dma_run_spec (ioctlMap : Nat → Nat → Nat → Option Nat) (maxSize : Nat)
    (hpos : 0 < maxSize)
    (herr : ∀ v d c e, ioctlMap v d c = some e → 0 < e) :
    ∀ fuel v d s, s ≤ fuel →
      chunksSeqFrom maxSize v d s (vfio_dma_map_run ioctlMap maxSize fuel v d s).1 = true
      ∧ ((vfio_dma_map_run ioctlMap maxSize fuel v d s).2 = 0 →
          (((vfio_dma_map_run ioctlMap maxSize fuel v d s).1.map fun t => t.2.2).sum = s))
      ∧ ((vfio_dma_map_run ioctlMap maxSize fuel v d s).2 ≠ 0 →
          ∃ e q, (vfio_dma_map_run ioctlMap maxSize fuel v d s).1.getLast? = some q ∧
            ioctlMap q.1 q.2.1 q.2.2 = some e ∧
            (vfio_dma_map_run ioctlMap maxSize fuel v d s).2 = -(e : Int) ∧
            ∀ t ∈ (vfio_dma_map_run ioctlMap maxSize fuel v d s).1.dropLast,
              ioctlMap t.1 t.2.1 t.2.2 = none) := by
  intro fuel
  induction fuel with
  | zero =>
    intro v d s hs
    have hs0 : s = 0 := Nat.le_zero.1 hs
    subst hs0
    refine ⟨rfl, fun _ => rfl, fun h => absurd rfl h⟩
  | succ n ih =>
    intro v d s hs
    by_cases h0 : s = 0
    · subst h0
      simp only [vfio_dma_map_run, if_pos rfl]
      exact ⟨rfl, fun _ => rfl, fun h => absurd rfl h⟩
    · have hc1 : 0 < min s maxSize := lt_min (Nat.pos_of_ne_zero h0) hpos
      cases hio : ioctlMap v d (min s maxSize) with
      | some e =>
        have he : 0 < e := herr _ _ _ _ hio
        simp only [vfio_dma_map_run, if_neg h0, hio]
        refine ⟨?_, ?_, ?_⟩
        · simp [chunksSeqFrom, hc1]
        · intro habs
          exfalso
          have habs2 : -((e : Int)) = 0 := habs
          have he2 : (0:Int) < (e : Int) := by exact_mod_cast he
          omega
        · intro _
          exact ⟨e, (v, d, min s maxSize), rfl, hio, rfl, by simp⟩
      | none =>
        have hrec : s - min s maxSize ≤ n := by omega
        obtain ⟨ih1, ih2, ih3⟩ := ih (v + min s maxSize) (d + min s maxSize)
          (s - min s maxSize) hrec
        simp only [vfio_dma_map_run, if_neg h0, hio]
        refine ⟨?_, ?_, ?_⟩
        · simp [chunksSeqFrom, hc1, ih1]
        · intro hz
          simp only [List.map_cons, List.sum_cons]
          rw [ih2 hz]
          exact Nat.add_sub_cancel' (Nat.min_le_left s maxSize)
        · intro hz
          obtain ⟨e, q, hlast, hioq, hval, hpre⟩ := ih3 hz
          refine ⟨e, q, ?_, hioq, hval, ?_⟩
          · have hne : (vfio_dma_map_run ioctlMap maxSize n (v + min s maxSize)
                (d + min s maxSize) (s - min s maxSize)).1 ≠ [] := by
              intro hcon
              rw [hcon] at hlast
              simp at hlast
            rw [List.getLast?_cons]
            cases hl : (vfio_dma_map_run ioctlMap maxSize n (v + min s maxSize)
                (d + min s maxSize) (s - min s maxSize)).1 with
            | nil => exact absurd hl hne
            | cons a as =>
              rw [hl] at hlast
              simpa [List.getLast?_cons] using hlast
          · intro t ht
            have hne : (vfio_dma_map_run ioctlMap maxSize n (v + min s maxSize)
                (d + min s maxSize) (s - min s maxSize)).1 ≠ [] := by
              intro hcon
              rw [hcon] at hlast
              simp at hlast
            rw [List.dropLast_cons_of_ne_nil hne] at ht
            rcases List.mem_cons.1 ht with rfl | ht
            · exact hio
            · exact hpre t ht

/-- C5: vfio_dma_map splits every request into sequential chunks of size
`MIN(size, VFIO_MAX_MAP_SIZE)` each, advancing the host virtual address and
the IOVA together by the chunk size; on success the chunk sizes sum to the
requested size (so the chunks tile the range exactly, with no gap and no
overlap); on failure the function stops at the first failing call and returns
that call's negative errno, all earlier issued calls having succeeded. -/
theorem dma_map_chunking (ioctlMap : Nat → Nat → Nat → Option Nat) (ramPtr : Nat → Nat)
    (maxSize start_addr size phys_offset : Nat) (hpos : 0 < maxSize)
    (herr : ∀ v d c e, ioctlMap v d c = some e → 0 < e) :
    chunksSeqFrom maxSize (ramPtr phys_offset) start_addr size
      (vfio_dma_map ioctlMap ramPtr maxSize start_addr size phys_offset).1 = true
    ∧ ((vfio_dma_map ioctlMap ramPtr maxSize start_addr size phys_offset).2 = 0 →
        (((vfio_dma_map ioctlMap ramPtr maxSize start_addr size phys_offset).1.map
            fun t => t.2.2).sum = size))
    ∧ ((vfio_dma_map ioctlMap ramPtr maxSize start_addr size phys_offset).2 ≠ 0 →
        ∃ e q, (vfio_dma_map ioctlMap ramPtr maxSize start_addr size phys_offset).1.getLast? =
            some q ∧
          ioctlMap q.1 q.2.1 q.2.2 = some e ∧
          (vfio_dma_map ioctlMap ramPtr maxSize start_addr size phys_offset).2 = -(e : Int) ∧
          ∀ t ∈ (vfio_dma_map ioctlMap ramPtr maxSize start_addr size phys_offset).1.dropLast,
            ioctlMap t.1 t.2.1 t.2.2 = none) :=
  dma_run_spec ioctlMap maxSize hpos herr size (ramPtr phys_offset) start_addr size le_rfl

/-- C5 witness: a 10-byte request with a 3-byte chunk limit and an
always-succeeding channel is issued as four chunks tiling the range. -/
theorem dma_map_chunking_witness :
    (0:Nat) < 3 ∧
    chunksSeqFrom 3 200 100 10
      (vfio_dma_map (fun _ _ _ => none) id 3 100 10 200).1 = true ∧
    (((vfio_dma_map (fun _ _ _ => none) id 3 100 10 200).1.map fun t => t.2.2).sum = 10) :=
  ⟨by norm_num,
    (dma_map_chunking (fun _ _ _ => none) id 3 100 10 200 (by norm_num)
      (fun _ _ _ _ h => by cases h)).1,
    (dma_map_chunking (fun _ _ _ => none) id 3 100 10 200 (by norm_num)
      (fun _ _ _ _ h => by cases h)).2.1 (by decide)⟩

/-! ## Memory-client DMA registration (vfio_client_set_memory) -/

/-- The observable channel calls made by the memory client: a `dmap` records
one vfio_dma_map call, a `dunmap` one vfio_dma_unmap call, each with
(guest-physical start, size, ram phys_offset). -/
inductive DmaAction
  | dmap (addr size phys : Nat)
  | dunmap (addr size phys : Nat)
deriving DecidableEq

/-- The EBUSY page walk of vfio_client_set_memory: page by page, read the
currently bound backing (`cpu_get_physical_page_desc`, oracle `desc`); where
it differs from the desired backing, unmap the old page and remap the desired
one, stopping early if the remap fails; matching pages are skipped.  Returns
the issued calls and whether the walk reached the end of the range.  Fuel is
the remaining byte count (an over-approximation of the page count). -/
def ebusyWalk (ioctlMap ioctlUnmap : Nat → Nat → Nat → Option Nat)
    (ramPtr desc : Nat → Nat) (maxSize : Nat) :
    Nat → Nat → Nat → Nat → List DmaAction × Bool
  | 0, curr, endAddr, _ => ([], decide (endAddr ≤ curr))
  | fuel+1, curr, endAddr, curr_phys =>
    if endAddr ≤ curr then ([], true)
    else
      let phys := desc curr
      if phys ≠ curr_phys then
        let m := vfio_dma_map ioctlMap ramPtr maxSize curr TARGET_PAGE_SIZE curr_phys
        if m.2 ≠ 0 then
          ([DmaAction.dunmap curr TARGET_PAGE_SIZE phys,
            DmaAction.dmap curr TARGET_PAGE_SIZE curr_phys], false)
        else
          (DmaAction.dunmap curr TARGET_PAGE_SIZE phys ::
           DmaAction.dmap curr TARGET_PAGE_SIZE curr_phys ::
           (ebusyWalk ioctlMap ioctlUnmap ramPtr desc maxSize fuel
              (curr + TARGET_PAGE_SIZE) endAddr (curr_phys + TARGET_PAGE_SIZE)).1,
           (ebusyWalk ioctlMap ioctlUnmap ramPtr desc maxSize fuel
              (curr + TARGET_PAGE_SIZE) endAddr (curr_phys + TARGET_PAGE_SIZE)).2)
      else
        ebusyWalk ioctlMap ioctlUnmap ramPtr desc maxSize fuel
          (curr + TARGET_PAGE_SIZE) endAddr (curr_phys + TARGET_PAGE_SIZE)

/-- vfio_client_set_memory, recorded as its sequence of dma map/unmap calls.
Unaligned ranges are ignored; `flags = phys_offset & ~TARGET_PAGE_MASK`
selects the RAM (map) or unassigned (unmap) path; a map failing with -EBUSY
triggers the page walk, and only if the walk stops early (or the failure was
not EBUSY) is the whole range unmapped and the failure logged. -/
def vfio_client_set_memory (ioctlMap ioctlUnmap : Nat → Nat → Nat → Option Nat)
    (ramPtr desc : Nat → Nat) (maxSize start_addr size phys_offset : Nat) :
    List DmaAction :=
  if (start_addr ||| size) &&& 0xfff ≠ 0 then []
  else if phys_offset &&& 0xfff = IO_MEM_RAM then
    let r := (vfio_dma_map ioctlMap ramPtr maxSize start_addr size phys_offset).2
    if r = 0 then [DmaAction.dmap start_addr size phys_offset]
    else if r = -(EBUSY : Int) then
      let w := ebusyWalk ioctlMap ioctlUnmap ramPtr desc maxSize size start_addr
        (start_addr + size) phys_offset
      if w.2 then DmaAction.dmap start_addr size phys_offset :: w.1
      else DmaAction.dmap start_addr size phys_offset :: w.1
        ++ [DmaAction.dunmap start_addr size phys_offset]
    else [DmaAction.dmap start_addr size phys_offset,
          DmaAction.dunmap start_addr size phys_offset]
  else if phys_offset &&& 0xfff = IO_MEM_UNASSIGNED then
    [DmaAction.dunmap start_addr size phys_offset]
  else []

/-- Specification-side trace of the page walk over `n` pages from `curr`:
pages whose bound backing equals the desired one contribute nothing; differing
pages contribute exactly one unmap of the old backing followed by one remap of
the desired backing. -/
def walkExpected (desc : Nat → Nat) : Nat → Nat → Nat → List DmaAction
  | 0, _, _ => []
  | n+1, curr, cphys =>
    (if desc curr = cphys then []
     else [DmaAction.dunmap curr TARGET_PAGE_SIZE (desc curr),
           DmaAction.dmap curr TARGET_PAGE_SIZE cphys])
    ++ walkExpected desc n (curr + TARGET_PAGE_SIZE) (cphys + TARGET_PAGE_SIZE)

theorem ebusyWalk_expected (ioctlMap ioctlUnmap : Nat → Nat → Nat → Option Nat)
    (ramPtr desc : Nat → Nat) (maxSize : Nat) :
    ∀ n fuel curr cphys, n ≤ fuel →
      (∀ k < n, desc (curr + TARGET_PAGE_SIZE * k) ≠ cphys + TARGET_PAGE_SIZE * k →
        (vfio_dma_map ioctlMap ramPtr maxSize (curr + TARGET_PAGE_SIZE * k)
          TARGET_PAGE_SIZE (cphys + TARGET_PAGE_SIZE * k)).2 = 0) →
      ebusyWalk ioctlMap ioctlUnmap ramPtr desc maxSize fuel curr
          (curr + TARGET_PAGE_SIZE * n) cphys =
        (walkExpected desc n curr cphys, true) := by
  intro n
  induction n with
  | zero =>
    intro fuel curr cphys _ _
    cases fuel with
    | zero => simp [ebusyWalk, walkExpected]
    | succ f => simp [ebusyWalk, walkExpected]
  | succ m ih =>
    intro fuel curr cphys hf hmap
    cases fuel with
    | zero => omega
    | succ f =>
      have hlt : ¬ (curr + TARGET_PAGE_SIZE * (m+1) ≤ curr) := by
        simp [TARGET_PAGE_SIZE]
      have hshift : curr + TARGET_PAGE_SIZE * (m+1) =
          (curr + TARGET_PAGE_SIZE) + TARGET_PAGE_SIZE * m := by ring
      have hmap0 := hmap 0 (Nat.succ_pos m)
      have hmaps : ∀ k < m,
          desc ((curr + TARGET_PAGE_SIZE) + TARGET_PAGE_SIZE * k) ≠
            (cphys + TARGET_PAGE_SIZE) + TARGET_PAGE_SIZE * k →
          (vfio_dma_map ioctlMap ramPtr maxSize
            ((curr + TARGET_PAGE_SIZE) + TARGET_PAGE_SIZE * k) TARGET_PAGE_SIZE
            ((cphys + TARGET_PAGE_SIZE) + TARGET_PAGE_SIZE * k)).2 = 0 := by
        intro k hk hne
        have h1 : (curr + TARGET_PAGE_SIZE) + TARGET_PAGE_SIZE * k =
            curr + TARGET_PAGE_SIZE * (k+1) := by ring
        have h2 : (cphys + TARGET_PAGE_SIZE) + TARGET_PAGE_SIZE * k =
            cphys + TARGET_PAGE_SIZE * (k+1) := by ring
        rw [h1, h2] at hne ⊢
        exact hmap (k+1) (by omega) hne
      by_cases hd : desc curr = cphys
      · simp only [ebusyWalk, if_neg hlt, hd, ne_eq, not_true_eq_false, if_false,
          ite_false, ite_true]
        rw [hshift]
        rw [ih f (curr + TARGET_PAGE_SIZE) (cphys + TARGET_PAGE_SIZE) (by omega) hmaps]
        simp [walkExpected, hd]
      · have hm0 : (vfio_dma_map ioctlMap ramPtr maxSize curr TARGET_PAGE_SIZE cphys).2 = 0 := by
          have := hmap0 (by simpa using hd)
          simpa using this
        simp only [ebusyWalk, if_neg hlt]
        rw [if_pos (by simpa using hd)]
        rw [if_neg (by simp [hm0])]
        rw [hshift]
        rw [ih f (curr + TARGET_PAGE_SIZE) (cphys + TARGET_PAGE_SIZE) (by omega) hmaps]
        simp [walkExpected, hd]

theorem mem_walkExpected (desc : Nat → Nat) :
    ∀ n curr cphys a, a ∈ walkExpected desc n curr cphys →
      ∃ k < n, desc (curr + TARGET_PAGE_SIZE * k) ≠ cphys + TARGET_PAGE_SIZE * k ∧
        (a = DmaAction.dunmap (curr + TARGET_PAGE_SIZE * k) TARGET_PAGE_SIZE
               (desc (curr + TARGET_PAGE_SIZE * k)) ∨
         a = DmaAction.dmap (curr + TARGET_PAGE_SIZE * k) TARGET_PAGE_SIZE
               (cphys + TARGET_PAGE_SIZE * k)) := by
  intro n
  induction n with
  | zero => intro curr cphys a ha; simp [walkExpected] at ha
  | succ m ih =>
    intro curr cphys a ha
    simp only [walkExpected, List.mem_append] at ha
    rcases ha with ha | ha
    · by_cases hd : desc curr = cphys
      · simp [hd] at ha
      · rw [if_neg hd] at ha
        rcases List.mem_cons.1 ha with rfl | ha
        · exact ⟨0, Nat.succ_pos m, by simpa using hd, Or.inl (by simp)⟩
        · rcases List.mem_singleton.1 ha with rfl
          exact ⟨0, Nat.succ_pos m, by simpa using hd, Or.inr (by simp)⟩
    · obtain ⟨k, hk, hne, hor⟩ := ih (curr + TARGET_PAGE_SIZE) (cphys + TARGET_PAGE_SIZE) a ha
      have h1 : (curr + TARGET_PAGE_SIZE) + TARGET_PAGE_SIZE * k =
          curr + TARGET_PAGE_SIZE * (k+1) := by ring
      have h2 : (cphys + TARGET_PAGE_SIZE) + TARGET_PAGE_SIZE * k =
          cphys + TARGET_PAGE_SIZE * (k+1) := by ring
      rw [h1, h2] at hne hor
      exact ⟨k+1, by omega, hne, hor⟩

/-- C4: when the map of a page-aligned RAM range fails with -EBUSY, the
client walks the range page by page: the issued calls after the initial
failed map are exactly, in page order, an unmap of the old backing followed
by a remap of the desired backing for every page whose currently bound
backing differs from the desired one; every issued walk call concerns such a
differing page, so pages whose binding already matches are untouched. -/
theorem set_memory_ebusy_walk (ioctlMap ioctlUnmap : Nat → Nat → Nat → Option Nat)
    (ramPtr desc : Nat → Nat) (maxSize start_addr size phys_offset n : Nat)
    (hal : (start_addr ||| size) &&& 0xfff = 0)
    (hflags : phys_offset &&& 0xfff = 0)
    (hn : size = TARGET_PAGE_SIZE * n)
    (hbusy : (vfio_dma_map ioctlMap ramPtr maxSize start_addr size phys_offset).2 =
      -(EBUSY : Int))
    (hremap : ∀ k < n,
      desc (start_addr + TARGET_PAGE_SIZE * k) ≠ phys_offset + TARGET_PAGE_SIZE * k →
        (vfio_dma_map ioctlMap ramPtr maxSize (start_addr + TARGET_PAGE_SIZE * k)
          TARGET_PAGE_SIZE (phys_offset + TARGET_PAGE_SIZE * k)).2 = 0) :
    vfio_client_set_memory ioctlMap ioctlUnmap ramPtr desc maxSize start_addr size
        phys_offset =
      DmaAction.dmap start_addr size phys_offset ::
        walkExpected desc n start_addr phys_offset
    ∧ ∀ a ∈ walkExpected desc n start_addr phys_offset, ∃ k < n,
        desc (start_addr + TARGET_PAGE_SIZE * k) ≠ phys_offset + TARGET_PAGE_SIZE * k ∧
        (a = DmaAction.dunmap (start_addr + TARGET_PAGE_SIZE * k) TARGET_PAGE_SIZE
               (desc (start_addr + TARGET_PAGE_SIZE * k)) ∨
         a = DmaAction.dmap (start_addr + TARGET_PAGE_SIZE * k) TARGET_PAGE_SIZE
               (phys_offset + TARGET_PAGE_SIZE * k)) := by
  constructor
  · have hnf : n ≤ size := by unfold TARGET_PAGE_SIZE at hn; omega
    have hwalk := ebusyWalk_expected ioctlMap ioctlUnmap ramPtr desc maxSize n size
      start_addr phys_offset hnf hremap
    unfold vfio_client_set_memory
    rw [if_neg (by simp [hal])]
    rw [if_pos (by simp [hflags, IO_MEM_RAM])]
    rw [if_neg (by rw [hbusy]; simp [EBUSY])]
    rw [if_pos hbusy]
    rw [← hn] at hwalk
    rw [hwalk]
    simp
  · exact fun a ha => mem_walkExpected desc n start_addr phys_offset a ha

/-- C4 witness: an 8 KiB aligned RAM range whose map fails with EBUSY, where
the first page's binding already matches and the second differs: exactly the
second page is unmapped and remapped. -/
theorem set_memory_ebusy_walk_witness :
    ((0 ||| 8192) &&& 0xfff = 0) ∧ (0x10000 &&& 0xfff = 0) ∧
    (8192 = TARGET_PAGE_SIZE * 2) ∧
    vfio_client_set_memory (fun _ _ c => if c = 4096 then none else some 16)
        (fun _ _ _ => none) id (fun _ => 0x10000) 0x100000 0 8192 0x10000 =
      [DmaAction.dmap 0 8192 0x10000,
       DmaAction.dunmap 4096 4096 0x10000,
       DmaAction.dmap 4096 4096 0x11000] :=
  ⟨by decide, by decide, by decide, by
    have h := (set_memory_ebusy_walk (fun _ _ c => if c = 4096 then none else some 16)
      (fun _ _ _ => none) id (fun _ => 0x10000) 0x100000 0 8192 0x10000 2
      (by decide) (by decide) (by decide) (by decide) (by decide)).1
    rw [h]
    decide⟩

/-! ## BAR mapping (vfio_iomem_map) -/

/-- A guest-visible registration made while mapping a memory BAR: `direct`
is a cpu_register_physical_memory(_offset) of a directly mapped region
(recording guest base, size, which of the two backing mappings, and the
residual source offset used on the slow path); `tableOverlay` is the
registration installed by the MSI-X table emulation. -/
inductive BarMapping
  | direct (guestBase size memIndex srcOffset : Nat)
  | tableOverlay (guestBase size : Nat)
deriving DecidableEq

/-- Modelled from the spec: `msix_mmio_map` (the virtual interrupt-table
emulation, outside this repository) overlays the MSI-X table page of the
mapped BAR, so that accesses to the table page are served by the emulation. -/
def msix_mmio_map (msix_offset e_phys : Nat) : List BarMapping :=
  [BarMapping.tableOverlay (e_phys + msix_offset) MSIX_PAGE_SIZE]

/-- vfio_iomem_map: for a BAR carrying the MSI-X table, register the region
below the table directly (when nonempty), overlay the table page, and if
space remains beyond the table page register it directly with the residual
offset; otherwise register the whole BAR directly. -/
def vfio_iomem_map (msix slow : Bool) (msix_offset e_phys e_size : Nat) :
    List BarMapping :=
  if msix then
    (if 0 < msix_offset then [BarMapping.direct e_phys msix_offset 0 0] else [])
    ++ msix_mmio_map msix_offset e_phys
    ++ (if msix_offset + MSIX_PAGE_SIZE < e_size then
          [BarMapping.direct (e_phys + (msix_offset + MSIX_PAGE_SIZE))
            (e_size - (msix_offset + MSIX_PAGE_SIZE)) 1
            (if slow then msix_offset + MSIX_PAGE_SIZE else 0)]
        else [])
  else [BarMapping.direct e_phys e_size 0 0]

/-- The (guest base, size) ranges of the direct mappings in a registration
list. -/
def directRanges (l : List BarMapping) : List (Nat × Nat) :=
  l.filterMap fun m => match m with
    | BarMapping.direct b s _ _ => some (b, s)
    | _ => none

/-! ## Resource discovery (vfio_map_resources) -/

/-- The fields of a PCIResource written by vfio_map_resources (plus the MSI-X
overlay fields preset by vfio_setup_msi). -/
structure Res where
  valid : Bool := false
  mem : Bool := false
  slow : Bool := false
  msix : Bool := false
  msix_offset : Nat := 0
  size : Nat := 0
  bar : Nat := 0
deriving DecidableEq

def defaultRes : Res := {}

/-- Output of the BAR discovery loop: final per-slot resource descriptors,
the list of BAR indices registered with the PCI framework (pci_register_bar),
the list of host mmaps issued as (bar, offset within the BAR, size), and
whether the loop completed without error. -/
structure MapOut where
  res : Nat → Res
  regs : List Nat
  mmaps : List (Nat × Nat × Nat)
  ok : Bool

def updRes (f : Nat → Res) (i : Nat) (r : Res) : Nat → Res :=
  fun j => if j = i then r else f j

theorem updRes_self (f : Nat → Res) (i : Nat) (r : Res) : updRes f i r i = r := by
  simp [updRes]

theorem updRes_other (f : Nat → Res) (i : Nat) (r : Res) {j : Nat} (h : j ≠ i) :
    updRes f i r j = f j := by
  simp [updRes, h]

/-- Effect of one iteration of the vfio_map_resources loop on slot `i`:
updated descriptors, whether pci_register_bar was called for `i`, the host
mmaps issued as (bar, offset within BAR, size), whether the iteration
completed without an early `return -1`, and the next slot index (two ahead
for a 64-bit memory BAR). -/
structure StepOut where
  res : Nat → Res
  reg : Bool
  mm : List (Nat × Nat × Nat)
  ok : Bool
  next : Nat

/-- One iteration of the vfio_map_resources loop body.  Oracles: `barLen i`
is the VFIO_GET_BAR_LEN result (`none` = ioctl failure), `barReg i` the raw
BAR register read from config space (`none` = pread failure), `mmapOk i part`
whether the mmap of part 0/1 of BAR i succeeds.  `res->bar = i` is written
before the length query; zero-length BARs are skipped; page-aligned memory
BARs are mmapped (split around the MSI-X table page when this BAR carries
it); non-aligned memory BARs take the slow path; I/O BARs use port
callbacks; `res->valid = true` is reached only at the end of a non-skipped,
non-failed iteration. -/
def mapResStep (barLen barReg : Nat → Option Nat) (mmapOk : Nat → Nat → Bool)
    (i : Nat) (res : Nat → Res) : StepOut :=
  let res1 := updRes res i { res i with bar := i }
  match barLen i with
  | none => ⟨res1, false, [], false, i + 1⟩
  | some len =>
    if len = 0 then ⟨res1, false, [], true, i + 1⟩
    else
      match barReg i with
      | none => ⟨res1, false, [], false, i + 1⟩
      | some bar =>
        let r0 := res1 i
        if bar &&& 1 = 0 ∧ len &&& 0xfff = 0 then
          let next := if bar &&& 4 ≠ 0 then i + 2 else i + 1
          if r0.msix then
            if r0.msix_offset ≠ 0 ∧ mmapOk i 0 = false then
              ⟨updRes res1 i { r0 with mem := true, size := len }, false, [], false, next⟩
            else if r0.msix_offset + MSIX_PAGE_SIZE < len ∧ mmapOk i 1 = false then
              ⟨updRes res1 i { r0 with mem := true, size := len }, false,
               if r0.msix_offset ≠ 0 then [(i, 0, r0.msix_offset)] else [], false, next⟩
            else
              ⟨updRes res1 i { r0 with mem := true, size := len, valid := true }, true,
               (if r0.msix_offset ≠ 0 then [(i, 0, r0.msix_offset)] else [])
                 ++ (if r0.msix_offset + MSIX_PAGE_SIZE < len then
                       [(i, r0.msix_offset + MSIX_PAGE_SIZE,
                         len - (r0.msix_offset + MSIX_PAGE_SIZE))] else []),
               true, next⟩
          else
            if mmapOk i 0 = false then
              ⟨updRes res1 i { r0 with mem := true, size := len }, false, [], false, next⟩
            else
              ⟨updRes res1 i { r0 with mem := true, size := len, valid := true }, true,
               [(i, 0, len)], true, next⟩
        else if bar &&& 1 = 0 then
          ⟨updRes res1 i
             { r0 with mem := true, slow := true, size := len, valid := true }, true, [],
           true, if bar &&& 4 ≠ 0 then i + 2 else i + 1⟩
        else
          ⟨updRes res1 i { r0 with size := len, valid := true }, true, [], true, i + 1⟩

/-- The `for (i = 0; i < PCI_ROM_SLOT; i++)` loop of vfio_map_resources,
chaining iterations; fuel `PCI_ROM_SLOT` suffices since `i` only grows. -/
def mapResLoop (barLen barReg : Nat → Option Nat) (mmapOk : Nat → Nat → Bool) :
    Nat → Nat → (Nat → Res) → MapOut
  | 0, _, res => ⟨res, [], [], true⟩
  | fuel+1, i, res =>
    if PCI_ROM_SLOT ≤ i then ⟨res, [], [], true⟩
    else
      let st := mapResStep barLen barReg mmapOk i res
      if st.ok then
        let out := mapResLoop barLen barReg mmapOk fuel st.next st.res
        ⟨out.res, (if st.reg then [i] else []) ++ out.regs, st.mm ++ out.mmaps, out.ok⟩
      else ⟨st.res, [], st.mm, false⟩

def vfio_map_resources (barLen barReg : Nat → Option Nat) (mmapOk : Nat → Nat → Bool)
    (res0 : Nat → Res) : MapOut :=
  mapResLoop barLen barReg mmapOk PCI_ROM_SLOT 0 res0

theorem mapResStep_facts (barLen barReg : Nat → Option Nat) (mmapOk : Nat → Nat → Bool)
    (i : Nat) (res : Nat → Res) :
    (∀ j, j ≠ i → (mapResStep barLen barReg mmapOk i res).res j = res j)
    ∧ (((mapResStep barLen barReg mmapOk i res).res i).valid = true →
        (res i).valid = true ∨ ∃ l, barLen i = some l ∧ l ≠ 0)
    ∧ ((mapResStep barLen barReg mmapOk i res).reg = true →
        ∃ l, barLen i = some l ∧ l ≠ 0) := by
  unfold mapResStep
  cases hbl : barLen i with
  | none =>
    refine ⟨fun j hj => by simp [updRes, hj], fun hv => ?_, fun hr => by simp at hr⟩
    left
    simpa [updRes] using hv
  | some len =>
    simp only []
    by_cases hlz : len = 0
    · subst hlz
      simp only [if_pos rfl]
      refine ⟨fun j hj => by simp [updRes, hj], fun hv => ?_, fun hr => by simp at hr⟩
      left
      simpa [updRes] using hv
    · rw [if_neg hlz]
      cases hbr : barReg i with
      | none =>
        refine ⟨fun j hj => by simp [updRes, hj], fun hv => ?_, fun hr => by simp at hr⟩
        left
        simpa [updRes] using hv
      | some bar =>
        simp only []
        by_cases hpa : bar &&& 1 = 0 ∧ len &&& 0xfff = 0
        · rw [if_pos hpa]
          by_cases hmx : ((updRes res i { res i with bar := i } i).msix : Bool)
          · rw [if_pos hmx]
            by_cases hf1 : (updRes res i { res i with bar := i } i).msix_offset ≠ 0 ∧
                mmapOk i 0 = false
            · rw [if_pos hf1]
              refine ⟨fun j hj => by simp [updRes, hj], fun hv => ?_,
                fun hr => by simp at hr⟩
              left
              simpa [updRes] using hv
            · rw [if_neg hf1]
              by_cases hf2 : (updRes res i { res i with bar := i } i).msix_offset +
                  MSIX_PAGE_SIZE < len ∧ mmapOk i 1 = false
              · rw [if_pos hf2]
                refine ⟨fun j hj => by simp [updRes, hj], fun hv => ?_,
                  fun hr => by simp at hr⟩
                left
                simpa [updRes] using hv
              · rw [if_neg hf2]
                exact ⟨fun j hj => by simp [updRes, hj],
                  fun _ => Or.inr ⟨len, rfl, hlz⟩, fun _ => ⟨len, rfl, hlz⟩⟩
          · rw [if_neg hmx]
            by_cases hf0 : mmapOk i 0 = false
            · rw [if_pos hf0]
              refine ⟨fun j hj => by simp [updRes, hj], fun hv => ?_,
                fun hr => by simp at hr⟩
              left
              simpa [updRes] using hv
            · rw [if_neg hf0]
              exact ⟨fun j hj => by simp [updRes, hj],
                fun _ => Or.inr ⟨len, rfl, hlz⟩, fun _ => ⟨len, rfl, hlz⟩⟩
        · rw [if_neg hpa]
          by_cases hm2 : bar &&& 1 = 0
          · rw [if_pos hm2]
            exact ⟨fun j hj => by simp [updRes, hj],
              fun _ => Or.inr ⟨len, rfl, hlz⟩, fun _ => ⟨len, rfl, hlz⟩⟩
          · rw [if_neg hm2]
            exact ⟨fun j hj => by simp [updRes, hj],
              fun _ => Or.inr ⟨len, rfl, hlz⟩, fun _ => ⟨len, rfl, hlz⟩⟩

theorem mapResLoop_valid_spec (barLen barReg : Nat → Option Nat)
    (mmapOk : Nat → Nat → Bool) :
    ∀ fuel i res,
      (∀ j, barLen j = some 0 → (res j).valid = false) →
      (∀ j, barLen j = some 0 →
          ((mapResLoop barLen barReg mmapOk fuel i res).res j).valid = false ∧
          j ∉ (mapResLoop barLen barReg mmapOk fuel i res).regs)
      ∧ (∀ j, ((mapResLoop barLen barReg mmapOk fuel i res).res j).valid = true →
          (res j).valid = true ∨ ∃ l, barLen j = some l ∧ l ≠ 0) := by
  intro fuel
  induction fuel with
  | zero =>
    intro i res hres
    exact ⟨fun j hj => ⟨hres j hj, by simp [mapResLoop]⟩, fun j hj => Or.inl hj⟩
  | succ n ih =>
    intro i res hres
    by_cases hi : PCI_ROM_SLOT ≤ i
    · rw [show mapResLoop barLen barReg mmapOk (n+1) i res = ⟨res, [], [], true⟩ from by
        simp [mapResLoop, hi]]
      exact ⟨fun j hj => ⟨hres j hj, by simp⟩, fun j hj => Or.inl hj⟩
    · obtain ⟨ho, hv, hr⟩ := mapResStep_facts barLen barReg mmapOk i res
      have hstepv : ∀ j, barLen j = some 0 →
          ((mapResStep barLen barReg mmapOk i res).res j).valid = false := by
        intro j hj
        by_cases hji : j = i
        · subst hji
          by_cases hsv : ((mapResStep barLen barReg mmapOk j res).res j).valid = true
          · rcases hv hsv with h2 | ⟨l, hl, hlz⟩
            · rw [hres j hj] at h2; cases h2
            · rw [hj] at hl; cases hl; exact absurd rfl hlz
          · exact (Bool.not_eq_true _) ▸ hsv
        · rw [ho j hji]
          exact hres j hj
      by_cases hok : (mapResStep barLen barReg mmapOk i res).ok = true
      · rw [show mapResLoop barLen barReg mmapOk (n+1) i res =
            ⟨(mapResLoop barLen barReg mmapOk n (mapResStep barLen barReg mmapOk i res).next
                (mapResStep barLen barReg mmapOk i res).res).res,
             (if (mapResStep barLen barReg mmapOk i res).reg then [i] else []) ++
               (mapResLoop barLen barReg mmapOk n (mapResStep barLen barReg mmapOk i res).next
                 (mapResStep barLen barReg mmapOk i res).res).regs,
             (mapResStep barLen barReg mmapOk i res).mm ++
               (mapResLoop barLen barReg mmapOk n (mapResStep barLen barReg mmapOk i res).next
                 (mapResStep barLen barReg mmapOk i res).res).mmaps,
             (mapResLoop barLen barReg mmapOk n (mapResStep barLen barReg mmapOk i res).next
               (mapResStep barLen barReg mmapOk i res).res).ok⟩ from by
          simp [mapResLoop, hi, hok]]
        obtain ⟨ih1, ih2⟩ := ih (mapResStep barLen barReg mmapOk i res).next
          (mapResStep barLen barReg mmapOk i res).res hstepv
        constructor
        · intro j hj
          refine ⟨(ih1 j hj).1, ?_⟩
          simp only [List.mem_append, List.mem_cons]
          rintro (hmem | hmem)
          · by_cases hreg : (mapResStep barLen barReg mmapOk i res).reg = true
            · rw [hreg] at hmem
              simp at hmem
              obtain ⟨l, hl, hlz⟩ := hr hreg
              rw [hmem] at hj
              rw [hj] at hl
              cases hl
              exact hlz rfl
            · rw [Bool.not_eq_true] at hreg
              rw [hreg] at hmem
              simp at hmem
          · exact (ih1 j hj).2 hmem
        · intro j hj
          rcases ih2 j hj with h2 | h2
          · by_cases hji : j = i
            · subst hji
              exact hv h2
            · rw [ho j hji] at h2
              exact Or.inl h2
          · exact Or.inr h2
      · rw [show mapResLoop barLen barReg mmapOk (n+1) i res =
            ⟨(mapResStep barLen barReg mmapOk i res).res, [],
             (mapResStep barLen barReg mmapOk i res).mm, false⟩ from by
          simp [mapResLoop, hi, hok]]
        constructor
        · intro j hj
          exact ⟨hstepv j hj, by simp⟩
        · intro j hj
          have hj2 : ((mapResStep barLen barReg mmapOk i res).res j).valid = true := hj
          by_cases hji : j = i
          · subst hji
            exact hv hj2
          · rw [ho j hji] at hj2
            exact Or.inl hj2

/-- C9: a BAR slot whose queried length is zero is skipped by
vfio_map_resources: its Resource Descriptor keeps `valid = false` and the
slot is never registered with the guest-visible PCI framework; conversely
every descriptor that ends up valid belongs to a slot whose queried length
was nonzero. -/
theorem map_resources_zero_len_invalid (barLen barReg : Nat → Option Nat)
    (mmapOk : Nat → Nat → Bool) (res0 : Nat → Res)
    (h0 : ∀ j, (res0 j).valid = false) :
    (∀ j, barLen j = some 0 →
        ((vfio_map_resources barLen barReg mmapOk res0).res j).valid = false ∧
        j ∉ (vfio_map_resources barLen barReg mmapOk res0).regs)
    ∧ (∀ j, ((vfio_map_resources barLen barReg mmapOk res0).res j).valid = true →
        ∃ l, barLen j = some l ∧ l ≠ 0) := by
  have hres : ∀ j, barLen j = some 0 → (res0 j).valid = false := fun j _ => h0 j
  obtain ⟨p1, p2⟩ := mapResLoop_valid_spec barLen barReg mmapOk PCI_ROM_SLOT 0 res0 hres
  refine ⟨p1, fun j hj => ?_⟩
  rcases p2 j hj with h2 | h2
  · rw [h0 j] at h2; cases h2
  · exact h2

/-- C9 witness: with BAR 1 reporting length zero and the others 0x1000,
slot 1 stays invalid and unregistered. -/
theorem map_resources_zero_len_invalid_witness :
    (∀ j, ((fun (_ : Nat) => defaultRes) j).valid = false) ∧
    (((vfio_map_resources (fun i => if i = 1 then some 0 else some 0x1000)
        (fun _ => some 0) (fun _ _ => true) (fun _ => defaultRes)).res 1).valid = false ∧
      1 ∉ (vfio_map_resources (fun i => if i = 1 then some 0 else some 0x1000)
        (fun _ => some 0) (fun _ _ => true) (fun _ => defaultRes)).regs) :=
  ⟨fun _ => rfl,
    (map_resources_zero_len_invalid (fun i => if i = 1 then some 0 else some 0x1000)
      (fun _ => some 0) (fun _ _ => true) (fun _ => defaultRes) (fun _ => rfl)).1 1
      (by decide)⟩

/-- C1 (amended): a page-aligned memory BAR of length 0x2000 carrying the
MSI-X table at offset 0x1000 is split as: exactly one direct mapping,
covering the page below the table; the table page is covered by the
interrupt-table emulation overlay and by no direct mapping; since no space
remains beyond the table page (0x1000 + 0x1000 = 0x2000), no second direct
mapping exists; and on the host side vfio_map_resources mmaps exactly the
region below the table. -/
theorem iomem_map_msix_split (e_phys : Nat) :
    vfio_iomem_map true false 0x1000 e_phys 0x2000 =
      [BarMapping.direct e_phys 0x1000 0 0,
       BarMapping.tableOverlay (e_phys + 0x1000) 0x1000]
    ∧ directRanges (vfio_iomem_map true false 0x1000 e_phys 0x2000) = [(e_phys, 0x1000)]
    ∧ (∀ a, e_phys + 0x1000 ≤ a → a < e_phys + 0x2000 →
        (∀ p ∈ directRanges (vfio_iomem_map true false 0x1000 e_phys 0x2000),
            ¬ (p.1 ≤ a ∧ a < p.1 + p.2))
        ∧ (e_phys + 0x1000 ≤ a ∧ a < e_phys + 0x1000 + MSIX_PAGE_SIZE))
    ∧ (vfio_map_resources (fun i => if i = 0 then some 0x2000 else some 0)
         (fun _ => some 0) (fun _ _ => true)
         (fun i => if i = 0 then { defaultRes with msix := true, msix_offset := 0x1000 }
                   else defaultRes)).mmaps = [(0, 0, 0x1000)] := by
  have h1 : vfio_iomem_map true false 0x1000 e_phys 0x2000 =
      [BarMapping.direct e_phys 0x1000 0 0,
       BarMapping.tableOverlay (e_phys + 0x1000) 0x1000] := by
    simp [vfio_iomem_map, msix_mmio_map, MSIX_PAGE_SIZE]
  refine ⟨h1, ?_, ?_, ?_⟩
  · rw [h1]; simp [directRanges]
  · intro a ha1 ha2
    constructor
    · intro p hp
      rw [h1] at hp
      simp [directRanges] at hp
      subst hp
      simp only [not_and, not_lt]
      intro _
      omega
    · refine ⟨ha1, ?_⟩
      simp only [MSIX_PAGE_SIZE]
      omega
  · decide

/-- C1 witness: at a concrete guest base, an address inside the table page is
covered by no direct mapping and lies in the overlay range. -/
theorem iomem_map_msix_split_witness :
    ((0x40000000 : Nat) + 0x1000 ≤ 0x40001234) ∧
    ((0x40001234 : Nat) < 0x40000000 + 0x2000) ∧
    ((∀ p ∈ directRanges (vfio_iomem_map true false 0x1000 0x40000000 0x2000),
        ¬ (p.1 ≤ 0x40001234 ∧ 0x40001234 < p.1 + p.2))
      ∧ ((0x40000000 : Nat) + 0x1000 ≤ 0x40001234 ∧
          (0x40001234 : Nat) < 0x40000000 + 0x1000 + MSIX_PAGE_SIZE)) :=
  ⟨by norm_num, by norm_num,
    (iomem_map_msix_split 0x40000000).2.2.1 0x40001234 (by norm_num) (by norm_num)⟩

/-- C1 counterexample: with BAR length 0x2000 and table offset 0x1000 there
is no space above the table page, so the code produces one direct mapping,
not the two the claim asserts. -/
theorem iomem_map_msix_0x2000_one_direct :
    (directRanges (vfio_iomem_map true false 0x1000 0x80000000 0x2000)).length ≠ 2 ∧
    (directRanges (vfio_iomem_map true false 0x1000 0x80000000 0x2000)).length = 1 := by
  constructor <;> decide

/-! ## Interrupt state machine (vfio_enable_msi / vfio_disable_msi) -/

/-- The interrupt-related device state: current mode, vector count, the sets
of vector indices owning a registered fd handler, an initialized event
notifier, and an MSI-X claimed-vector marker, plus whether the INTx
machinery is set up. -/
structure VState where
  interrupt : Nat
  nr_vectors : Nat
  handlers : List Nat
  notifiers : List Nat
  msixUsed : List Nat
  intxLive : Bool
deriving DecidableEq

/-- vfio_disable_intx: drop the eventfd registration and INTx machinery,
mode becomes NONE. -/
def vfio_disable_intx (s : VState) : VState :=
  { s with intxLive := false, interrupt := INT_NONE }

/-- The per-vector unwind loop shared by vfio_disable_msi and the failure
path of vfio_enable_msi: for every vector below `n`, release the MSI-X
claimed marker (msix_vector_unuse, MSI-X only), clear the fd handler and
clean up the event notifier. -/
def clearVectors (n : Nat) (msix : Bool) (s : VState) : VState :=
  { s with
    handlers := s.handlers.filter (fun i => decide (n ≤ i)),
    notifiers := s.notifiers.filter (fun i => decide (n ≤ i)),
    msixUsed := if msix then s.msixUsed.filter (fun i => decide (n ≤ i)) else s.msixUsed }

mutual

/-- vfio_enable_intx: with no interrupt pin, do nothing; otherwise disable
the current mode and set up the INTx machinery.  `intxOk` is the outcome of
the two fallible setup calls, event_notifier_init and the
VFIO_SET_IRQ_EVENTFD ioctl: when either fails the function returns -1
before `vdev->interrupt = INT_INTx`, so the mode stays as the disable left
it.  The fuel only bounds the disable/enable mutual recursion, which stops
because a nested disable runs on a state already in mode NONE. -/
def vfio_enable_intx (intxOk : Bool) : Nat → Nat → VState → VState
  | 0, _, s => s
  | fuel+1, pin, s =>
    if pin = 0 then s
    else
      let s1 := vfio_disable_interrupts intxOk fuel pin s
      if intxOk then { s1 with intxLive := true, interrupt := INT_INTx }
      else s1

/-- vfio_disable_msi: drop the vector registrations, unwind every vector,
reset the count, set mode NONE, then immediately attempt to re-enable INTx
as the fallback delivery path. -/
def vfio_disable_msi (intxOk : Bool) : Nat → Bool → Nat → VState → VState
  | 0, _, _, s => s
  | fuel+1, msix, pin, s =>
    let s1 := clearVectors s.nr_vectors msix s
    vfio_enable_intx intxOk fuel pin { s1 with nr_vectors := 0, interrupt := INT_NONE }

/-- vfio_disable_interrupts: dispatch on the current interrupt mode. -/
def vfio_disable_interrupts (intxOk : Bool) : Nat → Nat → VState → VState
  | 0, _, s => s
  | fuel+1, pin, s =>
    if s.interrupt = INT_INTx then vfio_disable_intx s
    else if s.interrupt = INT_MSI then vfio_disable_msi intxOk fuel false pin s
    else if s.interrupt = INT_MSIX then vfio_disable_msi intxOk fuel true pin s
    else s

end

/-- vfio_enable_msi: disable whichever mode is active (`intxOk` being the
outcome of the INTx setup calls should the disable path re-enable INTx),
allocate `nvec` vectors (msix_entries_nr or msi_nr_vectors_allocated),
create an event notifier and an fd handler per vector and (for MSI-X) claim
each vector, then register all eventfds with the channel in one bulk ioctl
whose outcome is `ioctlFails`.  On failure every vector just created is
unwound and the count reset to zero; on success the mode becomes MSI or
MSI-X. -/
def vfio_enable_msi (msix : Bool) (pin nvec : Nat) (ioctlFails intxOk : Bool)
    (s : VState) : VState :=
  let s0 := vfio_disable_interrupts intxOk 8 pin s
  let s1 := { s0 with
    nr_vectors := nvec,
    handlers := s0.handlers ++ List.range nvec,
    notifiers := s0.notifiers ++ List.range nvec,
    msixUsed := if msix then s0.msixUsed ++ List.range nvec else s0.msixUsed }
  if ioctlFails then
    { clearVectors nvec msix s1 with nr_vectors := 0 }
  else
    { s1 with interrupt := if msix then INT_MSIX else INT_MSI }

theorem disable_interrupts_mode (intxOk : Bool) (pin : Nat) (s : VState)
    (hmode : s.interrupt ≤ 3) :
    (vfio_disable_interrupts intxOk 8 pin s).interrupt =
      if 2 ≤ s.interrupt ∧ pin ≠ 0 ∧ intxOk = true then INT_INTx else INT_NONE := by
  have h4 : s.interrupt = 0 ∨ s.interrupt = 1 ∨ s.interrupt = 2 ∨ s.interrupt = 3 := by
    omega
  rcases h4 with h | h | h | h
  · rw [if_neg (by omega)]
    simp [vfio_disable_interrupts, vfio_disable_intx, h, INT_NONE, INT_INTx, INT_MSI,
      INT_MSIX]
  · rw [if_neg (by omega)]
    simp [vfio_disable_interrupts, vfio_disable_intx, h, INT_NONE, INT_INTx, INT_MSI,
      INT_MSIX]
  · by_cases hpin : pin = 0
    · rw [if_neg (by simp [hpin])]
      simp [vfio_disable_interrupts, vfio_disable_msi, vfio_enable_intx, clearVectors,
        h, hpin, INT_NONE, INT_INTx, INT_MSI, INT_MSIX]
    · cases hok : intxOk with
      | false =>
        rw [if_neg (by simp [hok])]
        simp [vfio_disable_interrupts, vfio_disable_msi, vfio_enable_intx, clearVectors,
          h, hpin, hok, INT_NONE, INT_INTx, INT_MSI, INT_MSIX]
      | true =>
        rw [if_pos ⟨by omega, hpin, rfl⟩]
        simp [vfio_disable_interrupts, vfio_disable_msi, vfio_enable_intx, clearVectors,
          h, hpin, hok, INT_NONE, INT_INTx, INT_MSI, INT_MSIX]
  · by_cases hpin : pin = 0
    · rw [if_neg (by simp [hpin])]
      simp [vfio_disable_interrupts, vfio_disable_msi, vfio_enable_intx, clearVectors,
        h, hpin, INT_NONE, INT_INTx, INT_MSI, INT_MSIX]
    · cases hok : intxOk with
      | false =>
        rw [if_neg (by simp [hok])]
        simp [vfio_disable_interrupts, vfio_disable_msi, vfio_enable_intx, clearVectors,
          h, hpin, hok, INT_NONE, INT_INTx, INT_MSI, INT_MSIX]
      | true =>
        rw [if_pos ⟨by omega, hpin, rfl⟩]
        simp [vfio_disable_interrupts, vfio_disable_msi, vfio_enable_intx, clearVectors,
          h, hpin, hok, INT_NONE, INT_INTx, INT_MSI, INT_MSIX]

/-- C2 (amended): when the bulk vector-registration ioctl fails, every
vector created by this enable attempt is unwound (its fd handler, its event
notifier, and for MSI-X its claimed marker) and the vector count is reset to
zero; the interrupt mode ends as NONE when the prior mode was NONE or INTx,
but when the prior mode was MSI or MSI-X, the device has an INTx pin, and
the INTx setup calls (event-notifier creation and the eventfd registration
ioctl) succeed, it ends as INTx, because the disable path re-enables INTx
before the failed registration; if any INTx setup call fails, the mode ends
as NONE. -/
theorem enable_msi_failure_unwind (msix : Bool) (pin nvec : Nat) (intxOk : Bool)
    (s : VState) (hmode : s.interrupt ≤ 3) :
    (vfio_enable_msi msix pin nvec true intxOk s).nr_vectors = 0
    ∧ (∀ i < nvec, i ∉ (vfio_enable_msi msix pin nvec true intxOk s).handlers
        ∧ i ∉ (vfio_enable_msi msix pin nvec true intxOk s).notifiers
        ∧ (msix = true → i ∉ (vfio_enable_msi msix pin nvec true intxOk s).msixUsed))
    ∧ (vfio_enable_msi msix pin nvec true intxOk s).interrupt =
        (if 2 ≤ s.interrupt ∧ pin ≠ 0 ∧ intxOk = true then INT_INTx else INT_NONE) := by
  refine ⟨rfl, ?_, ?_⟩
  · intro i hi
    refine ⟨?_, ?_, ?_⟩
    · simp [vfio_enable_msi, clearVectors, List.mem_filter]
      omega
    · simp [vfio_enable_msi, clearVectors, List.mem_filter]
      omega
    · intro hmx
      subst hmx
      simp [vfio_enable_msi, clearVectors, List.mem_filter]
      omega
  · have hrd : (vfio_enable_msi msix pin nvec true intxOk s).interrupt =
        (vfio_disable_interrupts intxOk 8 pin s).interrupt := by
      simp [vfio_enable_msi, clearVectors]
    rw [hrd, disable_interrupts_mode intxOk pin s hmode]

/-- C2 witness: from MSI mode with pin 1, succeeding INTx setup and a
failing bulk registration of two MSI-X vectors, the count is reset and the
mode follows the amended rule (INTx, since the prior mode was MSI, a pin
exists and the INTx setup succeeded). -/
theorem enable_msi_failure_unwind_witness :
    ((⟨INT_MSI, 1, [0], [0], [], false⟩ : VState).interrupt ≤ 3) ∧
    (vfio_enable_msi true 1 2 true true
        ⟨INT_MSI, 1, [0], [0], [], false⟩).nr_vectors = 0 ∧
    (vfio_enable_msi true 1 2 true true ⟨INT_MSI, 1, [0], [0], [], false⟩).interrupt =
      (if 2 ≤ (⟨INT_MSI, 1, [0], [0], [], false⟩ : VState).interrupt ∧ (1:Nat) ≠ 0 ∧
          (true : Bool) = true
       then INT_INTx else INT_NONE) :=
  ⟨by decide,
   (enable_msi_failure_unwind true 1 2 true ⟨INT_MSI, 1, [0], [0], [], false⟩
     (by decide)).1,
   (enable_msi_failure_unwind true 1 2 true ⟨INT_MSI, 1, [0], [0], [], false⟩
     (by decide)).2.2⟩

/-- C2 counterexample: from MSI mode on a device with an INTx pin whose
INTx setup calls succeed, a failing MSI-X enable leaves the device in INTx
mode, not NONE: vfio_disable_msi re-enabled INTx before the bulk
registration failed. -/
theorem enable_msi_failure_not_none :
    (vfio_enable_msi true 1 2 true true
        ⟨INT_MSI, 1, [0], [0], [], false⟩).interrupt ≠ INT_NONE
    ∧ (vfio_enable_msi true 1 2 true true
        ⟨INT_MSI, 1, [0], [0], [], false⟩).interrupt = INT_INTx := by
  constructor <;> decide

/-! ## Config-space write routing (vfio_pci_write_config) -/

/-- The Interrupt Controller Bridge invocations a config write can make. -/
inductive IrqEvent
  | enableMsi
  | disableMsi
  | enableMsix
  | disableMsix
deriving DecidableEq

/-- vfio_pci_write_config, instrumented with the interrupt-bridge calls it
makes.  The unconditional physical write is not modelled (it does not touch
emulated state).  A write whose start address lies in the standard header
only mirrors into the emulation (`updDefault` models
pci_default_write_config) and returns.  Otherwise, for each capability
window the written range overlaps, the handler captures was-enabled, applies
the emulation update (`updDefault` then `updMsi`/`updMsix`, modelling
msi_write_config/msix_write_config), recomputes is-enabled, and invokes
enable on a 0→1 transition and disable on a 1→0 transition. -/
def vfio_pci_write_config {σ : Type} (d : CfgDev)
    (updDefault updMsi updMsix : σ → Nat → Nat → Nat → σ)
    (msiEnabled msixEnabled : σ → Bool)
    (st : σ) (addr val len : Nat) : σ × List IrqEvent :=
  if addr < PCI_CONFIG_HEADER_SIZE then (updDefault st addr val len, [])
  else
    let p1 :=
      if d.msiPresent && ranges_overlap addr len d.msi_cap d.msi_cap_size then
        let was := msiEnabled st
        let stA := updMsi (updDefault st addr val len) addr val len
        let en := msiEnabled stA
        (stA, if !was && en then [IrqEvent.enableMsi]
              else if was && !en then [IrqEvent.disableMsi] else [])
      else (st, [])
    let p2 :=
      if d.msixPresent && ranges_overlap addr len d.msix_cap MSIX_CAP_LENGTH then
        let was := msixEnabled p1.1
        let stB := updMsix (updDefault p1.1 addr val len) addr val len
        let en := msixEnabled stB
        (stB, if !was && en then [IrqEvent.enableMsix]
              else if was && !en then [IrqEvent.disableMsix] else [])
      else (p1.1, [])
    (p2.1, p1.2 ++ p2.2)

/-- Processing a sequence of config writes, concatenating the emitted
interrupt-bridge invocations. -/
def vfio_write_seq {σ : Type} (d : CfgDev)
    (updDefault updMsi updMsix : σ → Nat → Nat → Nat → σ)
    (msiEnabled msixEnabled : σ → Bool) :
    σ → List (Nat × Nat × Nat) → σ × List IrqEvent
  | st, [] => (st, [])
  | st, (a, v, l) :: ws =>
    ((vfio_write_seq d updDefault updMsi updMsix msiEnabled msixEnabled
        (vfio_pci_write_config d updDefault updMsi updMsix msiEnabled msixEnabled
          st a v l).1 ws).1,
     (vfio_pci_write_config d updDefault updMsi updMsix msiEnabled msixEnabled
        st a v l).2 ++
     (vfio_write_seq d updDefault updMsi updMsix msiEnabled msixEnabled
        (vfio_pci_write_config d updDefault updMsi updMsix msiEnabled msixEnabled
          st a v l).1 ws).2)

/-- Specification-side observation of one write: the MSI transition is
was-enabled on the incoming state versus is-enabled after the local
emulation update, provided MSI is present and the write overlaps its
window; `some true` is a 0→1 transition, `some false` a 1→0 transition,
`none` no transition (or a window not written). -/
def msiObserved {σ : Type} (d : CfgDev) (updDefault updMsi : σ → Nat → Nat → Nat → σ)
    (msiEnabled : σ → Bool) (st : σ) (a v l : Nat) : Option Bool :=
  if d.msiPresent && ranges_overlap a l d.msi_cap d.msi_cap_size then
    if msiEnabled st = msiEnabled (updMsi (updDefault st a v l) a v l) then none
    else some (msiEnabled (updMsi (updDefault st a v l) a v l))
  else none

/-- The MSI-X observation; its baseline is the state after the MSI branch
(the MSI emulation update has already been applied when both windows are
written). -/
def msixObserved {σ : Type} (d : CfgDev)
    (updDefault updMsi updMsix : σ → Nat → Nat → Nat → σ)
    (_msiEnabled msixEnabled : σ → Bool) (st : σ) (a v l : Nat) : Option Bool :=
  let st1 := if d.msiPresent && ranges_overlap a l d.msi_cap d.msi_cap_size then
      updMsi (updDefault st a v l) a v l
    else st
  if d.msixPresent && ranges_overlap a l d.msix_cap MSIX_CAP_LENGTH then
    if msixEnabled st1 = msixEnabled (updMsix (updDefault st1 a v l) a v l) then none
    else some (msixEnabled (updMsix (updDefault st1 a v l) a v l))
  else none

/-- The bridge invocations one write should produce, per observation: one
enable per 0→1 transition, one disable per 1→0 transition, nothing
otherwise. -/
def observedWriteEvents {σ : Type} (d : CfgDev)
    (updDefault updMsi updMsix : σ → Nat → Nat → Nat → σ)
    (msiEnabled msixEnabled : σ → Bool) (st : σ) (a v l : Nat) : List IrqEvent :=
  (match msiObserved d updDefault updMsi msiEnabled st a v l with
   | some true => [IrqEvent.enableMsi]
   | some false => [IrqEvent.disableMsi]
   | none => [])
  ++ (match msixObserved d updDefault updMsi updMsix msiEnabled msixEnabled st a v l with
   | some true => [IrqEvent.enableMsix]
   | some false => [IrqEvent.disableMsix]
   | none => [])

/-- The observation-side event trace of a write sequence, driven by the same
state evolution. -/
def observedSeq {σ : Type} (d : CfgDev)
    (updDefault updMsi updMsix : σ → Nat → Nat → Nat → σ)
    (msiEnabled msixEnabled : σ → Bool) :
    σ → List (Nat × Nat × Nat) → List IrqEvent
  | _, [] => []
  | st, (a, v, l) :: ws =>
    observedWriteEvents d updDefault updMsi updMsix msiEnabled msixEnabled st a v l ++
    observedSeq d updDefault updMsi updMsix msiEnabled msixEnabled
      (vfio_pci_write_config d updDefault updMsi updMsix msiEnabled msixEnabled
        st a v l).1 ws

theorem write_config_events_eq_observed {σ : Type} (d : CfgDev)
    (updDefault updMsi updMsix : σ → Nat → Nat → Nat → σ)
    (msiEnabled msixEnabled : σ → Bool) (st : σ) (a v l : Nat)
    (ha : PCI_CONFIG_HEADER_SIZE ≤ a) :
    (vfio_pci_write_config d updDefault updMsi updMsix msiEnabled msixEnabled
        st a v l).2 =
      observedWriteEvents d updDefault updMsi updMsix msiEnabled msixEnabled st a v l := by
  unfold vfio_pci_write_config observedWriteEvents msiObserved msixObserved
  rw [if_neg (by omega)]
  by_cases hmsi : (d.msiPresent && ranges_overlap a l d.msi_cap d.msi_cap_size) = true
  · by_cases hmsix :
        (d.msixPresent && ranges_overlap a l d.msix_cap MSIX_CAP_LENGTH) = true
    · simp only [hmsi, hmsix]
      cases hw : msiEnabled st <;>
        cases he : msiEnabled (updMsi (updDefault st a v l) a v l) <;>
          cases hw2 : msixEnabled (updMsi (updDefault st a v l) a v l) <;>
            cases he2 : msixEnabled
                (updMsix (updDefault (updMsi (updDefault st a v l) a v l) a v l) a v l) <;>
              simp [hw, he, hw2, he2]
    · rw [Bool.not_eq_true] at hmsix
      simp only [hmsi, hmsix]
      cases hw : msiEnabled st <;>
        cases he : msiEnabled (updMsi (updDefault st a v l) a v l) <;>
          simp [hw, he]
  · rw [Bool.not_eq_true] at hmsi
    by_cases hmsix :
        (d.msixPresent && ranges_overlap a l d.msix_cap MSIX_CAP_LENGTH) = true
    · simp only [hmsi, hmsix]
      cases hw : msixEnabled st <;>
        cases he : msixEnabled (updMsix (updDefault st a v l) a v l) <;>
          simp [hw, he]
    · rw [Bool.not_eq_true] at hmsix
      simp [hmsi, hmsix]

/-- C3 (amended): over any sequence of config-space writes each starting at
or past the standard 64-byte header, the interrupt-bridge invocations
emitted by vfio_pci_write_config are exactly the observed transitions of the
emulated enable bits: one enable per observed 0→1 transition of the MSI
(resp. MSI-X) enable bit of a write overlapping that capability window, one
disable per observed 1→0 transition, and nothing for writes that leave the
bit unchanged.  (A write starting inside the standard header mirrors into
the emulation and returns early, invoking neither — see the
counterexample.) -/
theorem write_seq_events_eq_observed {σ : Type} (d : CfgDev)
    (updDefault updMsi updMsix : σ → Nat → Nat → Nat → σ)
    (msiEnabled msixEnabled : σ → Bool) (st : σ) (ws : List (Nat × Nat × Nat))
    (ha : ∀ w ∈ ws, PCI_CONFIG_HEADER_SIZE ≤ w.1) :
    (vfio_write_seq d updDefault updMsi updMsix msiEnabled msixEnabled st ws).2 =
      observedSeq d updDefault updMsi updMsix msiEnabled msixEnabled st ws := by
  induction ws generalizing st with
  | nil => rfl
  | cons w ws ih =>
    obtain ⟨a, v, l⟩ := w
    have ha1 : PCI_CONFIG_HEADER_SIZE ≤ a := ha (a, v, l) (by simp)
    have ha2 : ∀ w ∈ ws, PCI_CONFIG_HEADER_SIZE ≤ w.1 :=
      fun w hw => ha w (List.mem_cons_of_mem _ hw)
    simp only [vfio_write_seq, observedSeq]
    rw [write_config_events_eq_observed d updDefault updMsi updMsix msiEnabled
      msixEnabled st a v l ha1]
    rw [ih _ ha2]

/-- pci_default_write_config, modelled from the spec: mirror the written
bytes into the locally emulated byte image (little-endian value layout). -/
def pciDefaultWrite (st : Nat → Nat) (addr val len : Nat) : Nat → Nat :=
  fun i => if addr ≤ i ∧ i < addr + len then (val >>> (8 * (i - addr))) % 256 else st i

/-- Modelled from the spec: msi_write_config and msix_write_config react to
the already-mirrored control value (delivering or releasing pending vectors)
but do not themselves change the emulated image. -/
def msiWriteNoop (st : Nat → Nat) (_a _v _l : Nat) : Nat → Nat := st

/-- The emulated MSI enable bit: bit 0 of the message-control register at
msi_cap + 2. -/
def msiEnabledAt (msi_cap : Nat) (st : Nat → Nat) : Bool :=
  decide (st (msi_cap + 2) % 2 = 1)

/-- The emulated MSI-X enable bit: bit 15 of the message-control register at
msix_cap + 2 (bit 7 of the byte at msix_cap + 3). -/
def msixEnabledAt (msix_cap : Nat) (st : Nat → Nat) : Bool :=
  decide (st (msix_cap + 3) / 128 % 2 = 1)

/-- C3 counterexample: a 4-byte write at address 63 (inside the standard
header) overlapping an MSI capability at 64 flips the emulated enable bit
0→1 through the header mirror, yet the early return invokes no enable: the
claim's "exactly once per observed 0→1 transition" fails for writes starting
inside the header. -/
theorem write_config_header_crossing_misses_enable :
    ranges_overlap 63 4 64 10 = true
    ∧ msiEnabledAt 64 (fun _ => 0) = false
    ∧ msiEnabledAt 64 (vfio_pci_write_config ⟨true, false, 64, 0, 10⟩ pciDefaultWrite
        msiWriteNoop msiWriteNoop (msiEnabledAt 64) (msixEnabledAt 0)
        (fun _ => 0) 63 0x01000000 4).1 = true
    ∧ (vfio_pci_write_config ⟨true, false, 64, 0, 10⟩ pciDefaultWrite
        msiWriteNoop msiWriteNoop (msiEnabledAt 64) (msixEnabledAt 0)
        (fun _ => 0) 63 0x01000000 4).2 = [] := by
  refine ⟨by decide, by decide, ?_, by decide⟩
  decide

/-- C3 witness: a 1-byte write at the MSI control register that sets the
enable bit emits exactly one enableMsi invocation. -/
theorem write_seq_events_eq_observed_witness :
    (∀ w ∈ [((66:Nat), (1:Nat), (1:Nat))], PCI_CONFIG_HEADER_SIZE ≤ w.1) ∧
    (vfio_write_seq ⟨true, false, 64, 0, 10⟩ pciDefaultWrite msiWriteNoop msiWriteNoop
        (msiEnabledAt 64) (msixEnabledAt 0) (fun _ => 0) [(66, 1, 1)]).2 =
      observedSeq ⟨true, false, 64, 0, 10⟩ pciDefaultWrite msiWriteNoop msiWriteNoop
        (msiEnabledAt 64) (msixEnabledAt 0) (fun _ => 0) [(66, 1, 1)] ∧
    (vfio_write_seq ⟨true, false, 64, 0, 10⟩ pciDefaultWrite msiWriteNoop msiWriteNoop
        (msiEnabledAt 64) (msixEnabledAt 0) (fun _ => 0) [(66, 1, 1)]).2 =
      [IrqEvent.enableMsi] :=
  ⟨by decide,
   write_seq_events_eq_observed ⟨true, false, 64, 0, 10⟩ pciDefaultWrite msiWriteNoop
     msiWriteNoop (msiEnabledAt 64) (msixEnabledAt 0) (fun _ => 0) [(66, 1, 1)]
     (by decide),
   by decide⟩

/-! ## Hot-remove control channel (vfio_parse_netlink) -/

/-- A host PCI identity (segment, bus, device, function). -/
structure HostId where
  seg : Nat
  bus : Nat
  dev : Nat
  func : Nat
deriving DecidableEq

/-- The state the netlink handler can touch: the registry of attached
devices (nl_list) plus, per device, whether an unplug request was sent to
the guest and whether the removal deadline timer is armed. -/
structure NlState where
  registry : List HostId
  unplugged : List HostId
  timers : List HostId
deriving DecidableEq

/-- A received control-channel message: sender port id (0 = kernel),
generic-netlink command, and the four optional device-identity
attributes. -/
structure NlMsg where
  nl_pid : Nat
  cmd : Nat
  domain : Option Nat
  busAttr : Option Nat
  slotAttr : Option Nat
  funcAttr : Option Nat
deriving DecidableEq

/-- Modelled from the spec: the REMOVE command number of the out-of-band
protocol (linux-vfio.h is outside this repository); only its identity
matters here. -/
def VFIO_MSG_REMOVE : Nat := 1

/-- vfio_parse_netlink: discard messages not from the kernel (nonzero sender
port id); reject messages missing any identity attribute with -1; look the
identity up in the registry and do nothing when absent; for REMOVE on a
registered device, send the unplug request and arm the removal timer;
other commands are unhandled. -/
def vfio_parse_netlink (s : NlState) (m : NlMsg) : NlState × Int :=
  if m.nl_pid ≠ 0 then (s, 0)
  else
    match m.domain, m.busAttr, m.slotAttr, m.funcAttr with
    | some seg, some bus, some dev, some func =>
      if (⟨seg, bus, dev, func⟩ : HostId) ∈ s.registry then
        if m.cmd = VFIO_MSG_REMOVE then
          ({ s with unplugged := (⟨seg, bus, dev, func⟩ : HostId) :: s.unplugged,
                    timers := (⟨seg, bus, dev, func⟩ : HostId) :: s.timers }, 0)
        else (s, 0)
      else (s, 0)
    | _, _, _, _ => (s, -1)

/-- C8: a REMOVE message whose device identity matches no attached device is
a no-op: the registry, the unplug requests and the armed timers are all left
exactly as they were. -/
theorem parse_netlink_remove_unknown (s : NlState) (m : NlMsg)
    (seg bus dev func : Nat)
    (_hcmd : m.cmd = VFIO_MSG_REMOVE)
    (hdom : m.domain = some seg) (hbus : m.busAttr = some bus)
    (hslot : m.slotAttr = some dev) (hfunc : m.funcAttr = some func)
    (hnot : (⟨seg, bus, dev, func⟩ : HostId) ∉ s.registry) :
    (vfio_parse_netlink s m).1 = s := by
  unfold vfio_parse_netlink
  by_cases hp : m.nl_pid ≠ 0
  · rw [if_pos hp]
  · rw [if_neg hp, hdom, hbus, hslot, hfunc]
    simp [hnot]

/-- C8 witness: a kernel REMOVE for an identity absent from the registry
leaves the state untouched. -/
theorem parse_netlink_remove_unknown_witness :
    ((⟨0, VFIO_MSG_REMOVE, some 9, some 9, some 9, some 9⟩ : NlMsg).cmd =
        VFIO_MSG_REMOVE) ∧
    ((⟨9, 9, 9, 9⟩ : HostId) ∉ (⟨[⟨0, 1, 2, 3⟩], [], []⟩ : NlState).registry) ∧
    (vfio_parse_netlink ⟨[⟨0, 1, 2, 3⟩], [], []⟩
        ⟨0, VFIO_MSG_REMOVE, some 9, some 9, some 9, some 9⟩).1 =
      (⟨[⟨0, 1, 2, 3⟩], [], []⟩ : NlState) :=
  ⟨rfl, by decide,
    parse_netlink_remove_unknown ⟨[⟨0, 1, 2, 3⟩], [], []⟩
      ⟨0, VFIO_MSG_REMOVE, some 9, some 9, some 9, some 9⟩ 9 9 9 9
      rfl rfl rfl rfl rfl (by decide)⟩

/-- C10: a control-channel message whose sender port id is nonzero (i.e. not
from the kernel) is discarded before any device lookup or command dispatch:
whatever its command and payload, the handler returns 0 and the state —
registry, unplug requests, timers — is exactly the state before. -/
theorem parse_netlink_nonkernel_discarded (s : NlState) (m : NlMsg)
    (hpid : m.nl_pid ≠ 0) :
    vfio_parse_netlink s m = (s, 0) := by
  unfold vfio_parse_netlink
  rw [if_pos hpid]

/-- C10 witness: a spoofed REMOVE from port id 7 naming a registered device
is discarded unprocessed. -/
theorem parse_netlink_nonkernel_discarded_witness :
    ((⟨7, VFIO_MSG_REMOVE, some 0, some 1, some 2, some 3⟩ : NlMsg).nl_pid ≠ 0) ∧
    vfio_parse_netlink ⟨[⟨0, 1, 2, 3⟩], [], []⟩
        ⟨7, VFIO_MSG_REMOVE, some 0, some 1, some 2, some 3⟩ =
      ((⟨[⟨0, 1, 2, 3⟩], [], []⟩ : NlState), 0) :=
  ⟨by decide,
    parse_netlink_nonkernel_discarded ⟨[⟨0, 1, 2, 3⟩], [], []⟩
      ⟨7, VFIO_MSG_REMOVE, some 0, some 1, some 2, some 3⟩ (by decide)⟩

end Vfio
